import Mathlib

/-!
Shallow embedding of the MediVue task-tracking backend
(`app/models.py`, `app/schemas.py`, `app/crud.py`, `app/main.py`).

The relational store is modelled as explicit lists of rows.  Tag rows and
task rows carry the columns of `models.py`; the many-to-many association is
modelled as the list of tag ids carried by each task row (the `task_tags`
join table keyed by `(task_id, tag_id)`).  Dates are modelled as integers
(days), `date.today()` becoming an explicit `today` parameter.

The SQLAlchemy session of `database.py` is configured with
`autoflush=False`, so inside one request a `select` only sees committed
rows; objects built during the request become visible only at `commit`,
which fails (IntegrityError) when the inserted rows violate the unique
constraint on `tags.name` or the composite primary key of `task_tags`.
-/

namespace Medivue

/-- A row of the `tags` table (`models.Tag`): integer primary key and a
name column bearing a unique constraint. -/
structure Tag where
  id : Nat
  name : String
deriving DecidableEq

/-- A row of the `tasks` table (`models.Task`), together with its side of
the `task_tags` association: the list of associated tag ids, in
relationship order. -/
structure Task where
  id : Nat
  title : String
  description : Option String
  priority : Int
  due_date : Int
  completed : Bool
  is_deleted : Bool
  tags : List Nat
deriving DecidableEq

/-- The database: the two tables plus the autoincrement counters for the
two integer primary keys. -/
structure DB where
  tasks : List Task
  tags : List Tag
  nextTaskId : Nat
  nextTagId : Nat
deriving DecidableEq

/-- Well-formedness guaranteed by the storage layer: primary keys are
unique, `tags.name` satisfies its unique constraint, and autoincrement
counters are beyond every existing id. -/
def DBWf (db : DB) : Prop :=
  (db.tasks.map Task.id).Nodup ∧
  (db.tags.map Tag.id).Nodup ∧
  (db.tags.map Tag.name).Nodup ∧
  (∀ t ∈ db.tasks, t.id < db.nextTaskId) ∧
  (∀ tg ∈ db.tags, tg.id < db.nextTagId)

instance (db : DB) : Decidable (DBWf db) := by
  unfold DBWf
  infer_instance

/-- Payload of `schemas.TaskCreate`, already type-coerced: `title` (max
length 200), optional `description`, `priority` (ge=1, le=5), `due_date`
(validator `date_must_be_future`), `completed` (default false), `tags`
(default `[]`; a JSON null behaves like `[]` in `crud.create_task`'s
`if task.tags:`). -/
structure TaskCreate where
  title : String
  description : Option String
  priority : Int
  due_date : Int
  completed : Bool
  tags : List String
deriving DecidableEq

/-- Payload of `schemas.TaskUpdate`: every field optional.  `none` means
the field is absent from the payload (excluded by `exclude_unset=True`);
for `description` and `tags` an explicit JSON null is distinguished from
absence, hence the doubled `Option`. -/
structure TaskUpdate where
  title : Option String
  description : Option (Option String)
  priority : Option Int
  due_date : Option Int
  completed : Option Bool
  tags : Option (Option (List String))
deriving DecidableEq

/-- Pydantic validation of a create payload (`schemas.TaskBase` fields):
`title` has only `max_length=200` (no minimum, no stripping),
`priority` has `ge=1, le=5`, and the `date_must_be_future` validator
rejects `due_date < today`.  All field errors are collected, in field
order, as `(field, message)` pairs. -/
def validateTaskCreate (today : Int) (p : TaskCreate) : List (String × String) :=
  (if 200 < p.title.length then
    [("title", "String should have at most 200 characters")] else [])
  ++ (if p.priority < 1 then
        [("priority", "Input should be greater than or equal to 1")]
      else if 5 < p.priority then
        [("priority", "Input should be less than or equal to 5")]
      else [])
  ++ (if p.due_date < today then
        [("due_date", "Value error, Due date cannot be in the past")] else [])

/-- Pydantic validation of an update payload (`schemas.TaskUpdate`):
`title` keeps `max_length=200` and `priority` keeps `ge=1, le=5`, but
`TaskUpdate` extends `BaseModel`, not `TaskBase`, so the
`date_must_be_future` validator does not apply to its `due_date`. -/
def validateTaskUpdate (p : TaskUpdate) : List (String × String) :=
  (match p.title with
   | some t =>
     if 200 < t.length then
       [("title", "String should have at most 200 characters")] else []
   | none => [])
  ++ (match p.priority with
      | some pr =>
        if pr < 1 then
          [("priority", "Input should be greater than or equal to 1")]
        else if 5 < pr then
          [("priority", "Input should be less than or equal to 5")]
        else []
      | none => [])

/-- One assignment `details[field] = message` of the exception handler in
`main.py` (python dict semantics: later assignment to the same key
overwrites). -/
def detailsInsert (m : List (String × String)) (field msg : String) :
    List (String × String) :=
  if m.any (fun kv => kv.1 == field) then
    m.map (fun kv => if kv.1 == field then (field, msg) else kv)
  else m ++ [(field, msg)]

/-- Embeds `validation_exception_handler` (`main.py`): folds the collected errors
into the `details` field-to-message mapping. -/
def validationDetails (errors : List (String × String)) :
    List (String × String) :=
  errors.foldl (fun m e => detailsInsert m e.1 e.2) []

/-- Embeds `crud.get_task`: first row with the given id whose `is_deleted` flag is
false. -/
def get_task (db : DB) (task_id : Nat) : Option Task :=
  (db.tasks.filter (fun t => t.id == task_id && t.is_deleted == false)).head?

/-- Python `s.split(",")` on the underlying character list: cut at every
comma; splitting the empty string yields `[""]`. -/
def splitCommaAux : List Char → List Char → List String
  | [], acc => [String.mk acc.reverse]
  | c :: cs, acc =>
    if c = ',' then String.mk acc.reverse :: splitCommaAux cs []
    else splitCommaAux cs (c :: acc)

def pySplitComma (s : String) : List String :=
  splitCommaAux s.data []

/-- Python `s.strip()`: drop whitespace from both ends. -/
def pyStrip (s : String) : String :=
  String.mk (((s.data.dropWhile Char.isWhitespace).reverse.dropWhile
    Char.isWhitespace).reverse)

/-- The tag-filter string parsing in `crud.get_tasks`:
`[t.strip() for t in tags.split(",")]`. -/
def parseTagFilter (s : String) : List String :=
  (pySplitComma s).map pyStrip

/-- Embeds `models.Task.tags.any(models.Tag.name == tag_name)`: the task carries
some associated tag with the given name. -/
def taskHasTag (db : DB) (t : Task) (name : String) : Bool :=
  t.tags.any (fun tid => db.tags.any (fun tg => tg.id == tid && tg.name == name))

/-- Embeds `crud.get_tasks`: base filter `is_deleted == False`; optional filters
on `completed` and `priority`; when the tag string is present and truthy,
one additional filter per comma-separated name (AND semantics); then
`offset(skip).limit(limit)`. -/
def get_tasks (db : DB) (skip limit : Nat) (completed : Option Bool)
    (priority : Option Int) (tagsFilter : Option String) : List Task :=
  let q := db.tasks.filter (fun t => t.is_deleted == false)
  let q := match completed with
    | some c => q.filter (fun t : Task => t.completed == c)
    | none => q
  let q := match priority with
    | some p => q.filter (fun t : Task => t.priority == p)
    | none => q
  let q := match tagsFilter with
    | some s =>
      if s = "" then q
      else
        (parseTagFilter s).foldl
          (fun acc name => acc.filter (fun t : Task => taskHasTag db t name)) q
    | none => q
  (q.drop skip).take limit

/-- The tag loop shared by `crud.create_task` and `crud.update_task`: for
each name, in order, look the name up among the *committed* tag rows
(`autoflush=False`: rows built earlier in the same request are not
visible); reuse the row when found, otherwise build a fresh `Tag`.
Returns (references in input order, newly built rows in input order,
next free tag id). -/
def reconcileTags (dbTags : List Tag) (names : List String) (nextId : Nat) :
    List Tag × List Tag × Nat :=
  match names with
  | [] => ([], [], nextId)
  | n :: rest =>
    match dbTags.find? (fun tg => tg.name == n) with
    | some tg =>
      let r := reconcileTags dbTags rest nextId
      (tg :: r.1, r.2.1, r.2.2)
    | none =>
      let newTag : Tag := ⟨nextId, n⟩
      let r := reconcileTags dbTags rest (nextId + 1)
      (newTag :: r.1, newTag :: r.2.1, r.2.2)

/-- The commit of a request that inserts the tag rows `created` and one
association row per reference in `refs` succeeds iff the new `tags.name`
values are pairwise distinct (unique constraint; a new name never equals a
committed one, since the lookup would have found that row) and the new
`(task_id, tag_id)` association rows are pairwise distinct (composite
primary key of `task_tags`). -/
def commitOk (refs created : List Tag) : Prop :=
  (created.map Tag.name).Nodup ∧ (refs.map Tag.id).Nodup

instance (refs created : List Tag) : Decidable (commitOk refs created) :=
  inferInstanceAs (Decidable (_ ∧ _))

/-- Embeds `crud.create_task`: build the task row, run the tag loop, commit, and
re-fetch via `get_task`.  `none` is an `IntegrityError` at commit. -/
def create_task (db : DB) (p : TaskCreate) : Option (DB × Option Task) :=
  let r := reconcileTags db.tags p.tags db.nextTagId
  let db_task : Task :=
    { id := db.nextTaskId, title := p.title, description := p.description,
      priority := p.priority, due_date := p.due_date, completed := p.completed,
      is_deleted := false, tags := r.1.map Tag.id }
  if commitOk r.1 r.2.1 then
    let db2 : DB :=
      { tasks := db.tasks ++ [db_task], tags := db.tags ++ r.2.1,
        nextTaskId := db.nextTaskId + 1, nextTagId := r.2.2 }
    some (db2, get_task db2 db_task.id)
  else none

/-- The `setattr(db_task, key, value)` branch of `crud.update_task`'s loop
over `dict(exclude_unset=True)`, applied for each of the scalar keys
present in the payload (in field order: title, description, priority,
due_date, completed). -/
def applyScalarFields (u : TaskUpdate) (t0 : Task) : Task :=
  let t1 := match u.title with | some v => { t0 with title := v } | none => t0
  let t2 := match u.description with | some v => { t1 with description := v } | none => t1
  let t3 := match u.priority with | some v => { t2 with priority := v } | none => t2
  let t4 := match u.due_date with | some v => { t3 with due_date := v } | none => t3
  match u.completed with | some v => { t4 with completed := v } | none => t4

/-- Embeds `crud.update_task`: fetch via `get_task` (`ok (db, none)` = not found);
apply each field present in `dict(exclude_unset=True)`; when the `tags`
key is present, clear the association and run the tag loop — iterating a
`tags: null` value raises `TypeError`; commit (an `IntegrityError` is
possible as in create) and re-fetch. -/
def update_task (db : DB) (task_id : Nat) (u : TaskUpdate) :
    Except String (DB × Option Task) :=
  match get_task db task_id with
  | none => .ok (db, none)
  | some t0 =>
    let t5 := applyScalarFields u t0
    match u.tags with
    | none =>
      let db2 : DB :=
        { db with tasks := db.tasks.map (fun v => if v.id == task_id then t5 else v) }
      .ok (db2, get_task db2 task_id)
    | some none => .error "TypeError: NoneType object is not iterable"
    | some (some names) =>
      let r := reconcileTags db.tags names db.nextTagId
      if commitOk r.1 r.2.1 then
        let t6 := { t5 with tags := r.1.map Tag.id }
        let db2 : DB :=
          { tasks := db.tasks.map (fun v => if v.id == task_id then t6 else v),
            tags := db.tags ++ r.2.1,
            nextTaskId := db.nextTaskId, nextTagId := r.2.2 }
        .ok (db2, get_task db2 task_id)
      else .error "IntegrityError"

/-- Embeds `crud.delete_task`: fetch via `get_task`; when found, flip `is_deleted`
to true (an UPDATE on the row with that primary key) and return the
flipped object; when absent return `none`. -/
def delete_task (db : DB) (task_id : Nat) : DB × Option Task :=
  match get_task db task_id with
  | none => (db, none)
  | some t =>
    ({ db with tasks :=
        db.tasks.map (fun v => if v.id == task_id then { v with is_deleted := true } else v) },
     some { t with is_deleted := true })

/-- Outcome of an HTTP endpoint of `main.py`. -/
inductive ApiResult (α : Type) where
  | ok (db : DB) (value : α)
  | notFound
  | validationError (details : List (String × String))
  | serverError
deriving DecidableEq

/-- Embeds `POST /tasks` (`main.py`): Pydantic validation first — on failure the
handler renders a 422 with the `details` mapping and no repository call is
made; otherwise `crud.create_task` runs (an IntegrityError surfaces as a
server error). -/
def post_tasks (today : Int) (db : DB) (p : TaskCreate) :
    ApiResult (Option Task) :=
  let errs := validateTaskCreate today p
  if errs.isEmpty then
    match create_task db p with
    | some (db2, t) => .ok db2 t
    | none => .serverError
  else .validationError (validationDetails errs)

/-- Embeds the PATCH tasks endpoint of `main.py`: Pydantic validation of the
partial payload, then `crud.update_task`; a `None` result is a 404. -/
def patch_task (db : DB) (task_id : Nat) (u : TaskUpdate) :
    ApiResult Task :=
  let errs := validateTaskUpdate u
  if errs.isEmpty then
    match update_task db task_id u with
    | .ok (db2, some t) => .ok db2 t
    | .ok (_, none) => .notFound
    | .error _ => .serverError
  else .validationError (validationDetails errs)

/-! ### Helper lemmas about the tag loop -/

/-- The references returned by the tag loop bear the input names, one per
occurrence, in input order. -/
theorem reconcileTags_refs_names (dbTags : List Tag) :
    ∀ (names : List String) (k : Nat),
      (reconcileTags dbTags names k).1.map Tag.name = names := by
  intro names
  induction names with
  | nil => intro k; rfl
  | cons n rest ih =>
    intro k
    cases hf : dbTags.find? (fun tg => tg.name == n) with
    | some tg =>
      have hpn : tg.name = n := by
        have h2 := List.find?_some hf
        simpa using h2
      unfold reconcileTags
      rw [hf]
      simp only [List.map_cons, ih k, hpn]
    | none =>
      unfold reconcileTags
      rw [hf]
      simp only [List.map_cons, ih (k + 1)]

/-- The rows freshly built by the tag loop bear exactly the input names
that have no committed row, one per occurrence. -/
theorem reconcileTags_created_names (dbTags : List Tag) :
    ∀ (names : List String) (k : Nat),
      (reconcileTags dbTags names k).2.1.map Tag.name =
        names.filter (fun n => (dbTags.find? (fun tg => tg.name == n)).isNone) := by
  intro names
  induction names with
  | nil => intro k; rfl
  | cons n rest ih =>
    intro k
    cases hf : dbTags.find? (fun tg => tg.name == n) with
    | some tg =>
      unfold reconcileTags
      rw [hf, List.filter_cons_of_neg (by simp [hf])]
      exact ih k
    | none =>
      unfold reconcileTags
      rw [hf, List.filter_cons_of_pos (by simp [hf])]
      simp only [List.map_cons, ih (k + 1)]

/-- Every fresh row built by the tag loop takes an id at or beyond the
starting counter. -/
theorem reconcileTags_created_id_ge (dbTags : List Tag) :
    ∀ (names : List String) (k : Nat) (tg : Tag),
      tg ∈ (reconcileTags dbTags names k).2.1 → k ≤ tg.id := by
  intro names
  induction names with
  | nil => intro k tg h; simp [reconcileTags] at h
  | cons n rest ih =>
    intro k tg h
    cases hf : dbTags.find? (fun tg => tg.name == n) with
    | some tg2 =>
      unfold reconcileTags at h
      rw [hf] at h
      exact ih k tg h
    | none =>
      unfold reconcileTags at h
      rw [hf] at h
      rcases List.mem_cons.mp h with h1 | h2
      · subst h1; exact Nat.le_refl _
      · exact Nat.le_of_succ_le (ih (k + 1) tg h2)

/-- Every reference returned by the tag loop is a committed row or a
freshly built one. -/
theorem reconcileTags_refs_mem (dbTags : List Tag) :
    ∀ (names : List String) (k : Nat) (tg : Tag),
      tg ∈ (reconcileTags dbTags names k).1 →
        tg ∈ dbTags ∨ tg ∈ (reconcileTags dbTags names k).2.1 := by
  intro names
  induction names with
  | nil => intro k tg h; simp [reconcileTags] at h
  | cons n rest ih =>
    intro k tg h
    cases hf : dbTags.find? (fun tg => tg.name == n) with
    | some tg2 =>
      unfold reconcileTags at h ⊢
      rw [hf] at h ⊢
      rcases List.mem_cons.mp h with h1 | h2
      · subst h1; exact Or.inl (List.mem_of_find?_eq_some hf)
      · exact ih k tg h2
    | none =>
      unfold reconcileTags at h ⊢
      rw [hf] at h ⊢
      rcases List.mem_cons.mp h with h1 | h2
      · subst h1; exact Or.inr (List.mem_cons_self _ _)
      · rcases ih (k + 1) tg h2 with h3 | h3
        · exact Or.inl h3
        · exact Or.inr (List.mem_cons_of_mem _ h3)

/-- With unique committed ids, a duplicate-free name list and a counter
beyond every committed id, the tag references carry pairwise distinct ids
(so the association rows of the commit are pairwise distinct). -/
theorem reconcileTags_refs_ids_nodup (dbTags : List Tag)
    (hid : (dbTags.map Tag.id).Nodup) :
    ∀ (names : List String) (k : Nat), names.Nodup →
      (∀ tg ∈ dbTags, tg.id < k) →
      ((reconcileTags dbTags names k).1.map Tag.id).Nodup := by
  intro names
  induction names with
  | nil => intro k _ _; simp [reconcileTags]
  | cons n rest ih =>
    intro k hnd hlt
    have hn : n ∉ rest := (List.nodup_cons.mp hnd).1
    have hrest : rest.Nodup := (List.nodup_cons.mp hnd).2
    cases hf : dbTags.find? (fun tg => tg.name == n) with
    | some tg =>
      have htg : tg ∈ dbTags := List.mem_of_find?_eq_some hf
      have htgn : tg.name = n := by
        have h2 := List.find?_some hf
        simpa using h2
      unfold reconcileTags
      rw [hf]
      simp only [List.map_cons, List.nodup_cons]
      refine ⟨fun hmem => ?_, ih k hrest hlt⟩
      rcases List.mem_map.mp hmem with ⟨tg2, htg2, hideq⟩
      rcases reconcileTags_refs_mem dbTags rest k tg2 htg2 with hdb | hnew
      · have heq : tg2 = tg := List.inj_on_of_nodup_map hid hdb htg hideq
        have hname : tg2.name ∈ (reconcileTags dbTags rest k).1.map Tag.name :=
          List.mem_map_of_mem Tag.name htg2
        rw [reconcileTags_refs_names, heq, htgn] at hname
        exact hn hname
      · have h1 := reconcileTags_created_id_ge dbTags rest k tg2 hnew
        have h2 := hlt tg htg
        omega
    | none =>
      unfold reconcileTags
      rw [hf]
      simp only [List.map_cons, List.nodup_cons]
      refine ⟨fun hmem => ?_,
        ih (k + 1) hrest (fun tg htg => Nat.lt_succ_of_lt (hlt tg htg))⟩
      rcases List.mem_map.mp hmem with ⟨tg2, htg2, hideq⟩
      have hideq2 : tg2.id = k := hideq
      rcases reconcileTags_refs_mem dbTags rest (k + 1) tg2 htg2 with hdb | hnew
      · have := hlt tg2 hdb
        omega
      · have := reconcileTags_created_id_ge dbTags rest (k + 1) tg2 hnew
        omega

/-- On a well-formed database, the tag loop over a duplicate-free name
list yields a commit the storage layer accepts. -/
theorem reconcileTags_commitOk (db : DB) (hwf : DBWf db)
    (names : List String) (hnd : names.Nodup) :
    commitOk (reconcileTags db.tags names db.nextTagId).1
      (reconcileTags db.tags names db.nextTagId).2.1 := by
  constructor
  · rw [reconcileTags_created_names]
    exact hnd.filter _
  · exact reconcileTags_refs_ids_nodup db.tags hwf.2.1 names db.nextTagId hnd
      hwf.2.2.2.2

/-- On a well-formed database, a create whose payload carries no duplicate
tag name commits successfully. -/
theorem create_task_isSome (db : DB) (p : TaskCreate) (hwf : DBWf db)
    (hnd : p.tags.Nodup) : ∃ db2 t, create_task db p = some (db2, t) := by
  unfold create_task
  rw [if_pos (reconcileTags_commitOk db hwf p.tags hnd)]
  exact ⟨_, _, rfl⟩

/-! ### Helper lemmas about row visibility -/

/-- A task returned by `get_task` is a stored row bearing the requested id
with the soft-delete flag clear. -/
theorem get_task_some_elim (db : DB) (i : Nat) (t : Task)
    (h : get_task db i = some t) :
    t ∈ db.tasks ∧ t.id = i ∧ t.is_deleted = false := by
  unfold get_task at h
  rcases List.head?_eq_some_iff.mp h with ⟨ys, hys⟩
  have hmem : t ∈ db.tasks.filter (fun t => t.id == i && t.is_deleted == false) := by
    rw [hys]; exact List.mem_cons_self _ _
  have h1 := List.mem_of_mem_filter hmem
  have h2 := List.of_mem_filter hmem
  simp only [Bool.and_eq_true, beq_iff_eq] at h2
  exact ⟨h1, h2.1, h2.2⟩

/-- When every stored row with the given id is soft-deleted, `get_task`
returns nothing. -/
theorem get_task_none_of_invisible (db : DB) (i : Nat)
    (h : ∀ v ∈ db.tasks, v.id = i → v.is_deleted = true) :
    get_task db i = none := by
  unfold get_task
  have : db.tasks.filter (fun t => t.id == i && t.is_deleted == false) = [] := by
    rw [List.filter_eq_nil_iff]
    intro a ha hp
    simp only [Bool.and_eq_true, beq_iff_eq] at hp
    rw [h a ha hp.1] at hp
    simp at hp
  rw [this]
  rfl

/-- After rewriting every row bearing id `i` to the visible row `t6`,
`get_task i` returns `t6` (provided some row bears the id at all). -/
theorem get_task_row_update (l : List Task) (i : Nat) (t6 : Task)
    (h6 : t6.id = i) (hdel : t6.is_deleted = false)
    (hex : ∃ v ∈ l, v.id = i) :
    ((l.map (fun v => if v.id == i then t6 else v)).filter
      (fun t => t.id == i && t.is_deleted == false)).head? = some t6 := by
  induction l with
  | nil => rcases hex with ⟨v, hv, _⟩; simp at hv
  | cons a l ih =>
    simp only [List.map_cons]
    by_cases ha : a.id = i
    · rw [if_pos (by simp [ha])]
      rw [List.filter_cons_of_pos (by simp [h6, hdel])]
      rfl
    · rw [if_neg (by simp [ha])]
      rw [List.filter_cons_of_neg (by simp [ha])]
      apply ih
      rcases hex with ⟨v, hv, hvi⟩
      rcases List.mem_cons.mp hv with h1 | h2
      · exact absurd (h1 ▸ hvi) ha
      · exact ⟨v, h2, hvi⟩

/-- A row rewrite that only touches rows a filter rejects (both before and
after the rewrite) leaves the filter's result unchanged. -/
theorem filter_map_untouched {l : List Task} {g : Task → Task}
    {p : Task → Bool}
    (h : ∀ v ∈ l, (p (g v) = false ∧ p v = false) ∨ g v = v) :
    (l.map g).filter p = l.filter p := by
  induction l with
  | nil => rfl
  | cons a l ih =>
    have ht := fun v hv => h v (List.mem_cons_of_mem a hv)
    simp only [List.map_cons]
    rcases h a (List.mem_cons_self a l) with ⟨h1, h2⟩ | h3
    · rw [List.filter_cons_of_neg (by simp [h1]),
        List.filter_cons_of_neg (by simp [h2])]
      exact ih ht
    · rw [h3]
      cases hp : p a
      · rw [List.filter_cons_of_neg (by simp [hp]),
          List.filter_cons_of_neg (by simp [hp])]
        exact ih ht
      · rw [List.filter_cons_of_pos (by simp [hp]),
          List.filter_cons_of_pos (by simp [hp])]
        rw [ih ht]

/-! ### Helper lemmas about partial update -/

/-- Field-level reading of the scalar part of the update loop: each field
present in the payload is applied, each absent field keeps its prior
value, and id, soft-delete flag and tag list are untouched. -/
theorem applyScalarFields_spec (u : TaskUpdate) (t0 : Task) :
    applyScalarFields u t0 =
      { t0 with
        title := u.title.getD t0.title,
        description := u.description.getD t0.description,
        priority := u.priority.getD t0.priority,
        due_date := u.due_date.getD t0.due_date,
        completed := u.completed.getD t0.completed } := by
  rcases u with ⟨ot, od, op, odd, oc, otg⟩
  unfold applyScalarFields
  cases ot <;> cases od <;> cases op <;> cases odd <;> cases oc <;> rfl

/-- Computation of `update_task` on a found row when the payload omits the
`tags` key: the scalar fields are applied and the rewritten row is
re-fetched. -/
theorem update_task_tags_absent (db : DB) (i : Nat) (u : TaskUpdate)
    (t0 : Task) (h : get_task db i = some t0) (hu : u.tags = none) :
    update_task db i u =
      .ok ({ db with tasks :=
              db.tasks.map (fun v => if v.id == i then applyScalarFields u t0 else v) },
           some (applyScalarFields u t0)) := by
  obtain ⟨hmem, hid, hdel⟩ := get_task_some_elim db i t0 h
  have h5id : (applyScalarFields u t0).id = t0.id := by
    rw [applyScalarFields_spec]
  have h5del : (applyScalarFields u t0).is_deleted = false := by
    rw [applyScalarFields_spec]; exact hdel
  have hget : get_task
      { db with tasks :=
          db.tasks.map (fun v => if v.id == i then applyScalarFields u t0 else v) } i =
      some (applyScalarFields u t0) := by
    unfold get_task
    exact get_task_row_update db.tasks i (applyScalarFields u t0)
      (h5id.trans hid) h5del ⟨t0, hmem, hid⟩
  unfold update_task
  rw [h, hu]
  simp only [hget]

/-- Computation of `update_task` on a found row when the payload carries a
tag name list and the commit is accepted: scalar fields applied, the tag
set replaced by the loop's references, the fresh tag rows inserted. -/
theorem update_task_tags_present (db : DB) (i : Nat) (u : TaskUpdate)
    (t0 : Task) (names : List String) (h : get_task db i = some t0)
    (hu : u.tags = some (some names))
    (hcommit : commitOk (reconcileTags db.tags names db.nextTagId).1
      (reconcileTags db.tags names db.nextTagId).2.1) :
    update_task db i u =
      .ok (⟨db.tasks.map (fun v => if v.id == i then
              { applyScalarFields u t0 with
                tags := (reconcileTags db.tags names db.nextTagId).1.map Tag.id }
            else v),
            db.tags ++ (reconcileTags db.tags names db.nextTagId).2.1,
            db.nextTaskId,
            (reconcileTags db.tags names db.nextTagId).2.2⟩,
           some { applyScalarFields u t0 with
             tags := (reconcileTags db.tags names db.nextTagId).1.map Tag.id }) := by
  obtain ⟨hmem, hid, hdel⟩ := get_task_some_elim db i t0 h
  have h5id : (applyScalarFields u t0).id = t0.id := by
    rw [applyScalarFields_spec]
  have h5del : (applyScalarFields u t0).is_deleted = false := by
    rw [applyScalarFields_spec]; exact hdel
  unfold update_task
  rw [h, hu]
  have hget : get_task
      ⟨db.tasks.map (fun v => if v.id == i then
          { applyScalarFields u t0 with
            tags := (reconcileTags db.tags names db.nextTagId).1.map Tag.id }
        else v),
        db.tags ++ (reconcileTags db.tags names db.nextTagId).2.1,
        db.nextTaskId,
        (reconcileTags db.tags names db.nextTagId).2.2⟩ i =
      some { applyScalarFields u t0 with
        tags := (reconcileTags db.tags names db.nextTagId).1.map Tag.id } := by
    unfold get_task
    exact get_task_row_update db.tasks i _ (h5id.trans hid) h5del ⟨t0, hmem, hid⟩
  simp only [if_pos hcommit, hget]

/-- Computation of `update_task` when the payload's `tags` key is present
with value null: the loop reaches `for tag_name in None` and raises. -/
theorem update_task_tags_null (db : DB) (i : Nat) (u : TaskUpdate)
    (t0 : Task) (h : get_task db i = some t0) (hu : u.tags = some none) :
    update_task db i u = .error "TypeError: NoneType object is not iterable" := by
  unfold update_task
  rw [h, hu]

/-! ### Helper lemmas about listing and validation details -/

/-- The per-name filter loop of `crud.get_tasks` is conjunctive: a task
survives iff it carries every named tag. -/
theorem foldl_filter_all (db : DB) :
    ∀ (names : List String) (q : List Task),
      names.foldl (fun acc name => acc.filter (fun t : Task => taskHasTag db t name)) q =
        q.filter (fun t => names.all (fun n => taskHasTag db t n)) := by
  intro names
  induction names with
  | nil => intro q; simp
  | cons n rest ih =>
    intro q
    simp only [List.foldl_cons]
    rw [ih (q.filter (fun t : Task => taskHasTag db t n)), List.filter_filter]
    apply List.filter_congr
    intro a _
    simp [List.all_cons, Bool.and_comm]

/-- Whatever the filters, every task returned by `get_tasks` is a stored
row whose soft-delete flag is clear. -/
theorem mem_get_tasks (db : DB) (skip limit : Nat) (c : Option Bool)
    (pr : Option Int) (sf : Option String) (t : Task)
    (h : t ∈ get_tasks db skip limit c pr sf) :
    t ∈ db.tasks ∧ t.is_deleted = false := by
  rcases c with _ | cv <;> rcases pr with _ | pv <;> rcases sf with _ | s <;>
    simp only [get_tasks] at h <;>
    replace h := List.mem_of_mem_drop (List.mem_of_mem_take h)
  all_goals try rw [foldl_filter_all] at h
  all_goals try split at h
  all_goals simp only [List.mem_filter, Bool.and_eq_true, beq_iff_eq] at h
  all_goals tauto

/-- Evaluating `get_tasks` with only a (nonempty) tag-filter string: the result is
the requested page of exactly the visible tasks carrying every named
tag. -/
theorem get_tasks_tag_page (db : DB) (skip limit : Nat) (s : String)
    (hs : s ≠ "") :
    get_tasks db skip limit none none (some s) =
      ((db.tasks.filter (fun t => t.is_deleted == false &&
          (parseTagFilter s).all (fun n => taskHasTag db t n))).drop skip).take limit := by
  simp only [get_tasks]
  rw [if_neg hs, foldl_filter_all, List.filter_filter]
  congr 1
  apply congrArg
  apply List.filter_congr
  intro a _
  exact Bool.and_comm _ _

/-- One dict assignment preserves and extends the key set of the details
mapping. -/
theorem detailsInsert_any_key (m : List (String × String)) (f msg k : String) :
    (detailsInsert m f msg).any (fun kv => kv.1 == k) =
      (m.any (fun kv => kv.1 == k) || (f == k)) := by
  unfold detailsInsert
  split
  · rename_i hhas
    rw [List.any_map]
    by_cases hfk : f = k
    · subst hfk
      simp only [beq_self_eq_true, Bool.or_true]
      rw [List.any_eq_true] at hhas ⊢
      rcases hhas with ⟨kv, hkv, hp⟩
      refine ⟨kv, hkv, ?_⟩
      simp only [Function.comp_apply]
      rw [if_pos hp]
      simp
    · have hfun : ((fun kv : String × String => kv.1 == k) ∘
          fun kv => if kv.1 == f then (f, msg) else kv) =
          fun kv : String × String => kv.1 == k := by
        funext kv
        simp only [Function.comp_apply]
        by_cases h1 : kv.1 = f
        · rw [if_pos (by simp [h1])]
          simp [h1, hfk]
        · rw [if_neg (by simp [h1])]
      rw [hfun]
      simp [hfk]
  · rw [List.any_append]
    simp

/-- The handler's details mapping carries a key iff some collected error
is for that field. -/
theorem validationDetails_any_key (errors : List (String × String)) (k : String) :
    (validationDetails errors).any (fun kv => kv.1 == k) =
      errors.any (fun kv => kv.1 == k) := by
  suffices h : ∀ (errs m : List (String × String)),
      (errs.foldl (fun m e => detailsInsert m e.1 e.2) m).any (fun kv => kv.1 == k) =
        (m.any (fun kv => kv.1 == k) || errs.any (fun kv => kv.1 == k)) by
    unfold validationDetails
    rw [h]
    simp
  intro errs
  induction errs with
  | nil => intro m; simp
  | cons e rest ih =>
    intro m
    simp only [List.foldl_cons, List.any_cons]
    rw [ih, detailsInsert_any_key, Bool.or_assoc]

/-! ### Computation lemmas for create and delete -/

/-- Computation of `create_task` when the commit is accepted. -/
theorem create_task_found (db : DB) (p : TaskCreate)
    (hcommit : commitOk (reconcileTags db.tags p.tags db.nextTagId).1
      (reconcileTags db.tags p.tags db.nextTagId).2.1) :
    create_task db p =
      some (⟨db.tasks ++ [⟨db.nextTaskId, p.title, p.description, p.priority,
          p.due_date, p.completed, false,
          (reconcileTags db.tags p.tags db.nextTagId).1.map Tag.id⟩],
        db.tags ++ (reconcileTags db.tags p.tags db.nextTagId).2.1,
        db.nextTaskId + 1, (reconcileTags db.tags p.tags db.nextTagId).2.2⟩,
       get_task ⟨db.tasks ++ [⟨db.nextTaskId, p.title, p.description, p.priority,
          p.due_date, p.completed, false,
          (reconcileTags db.tags p.tags db.nextTagId).1.map Tag.id⟩],
        db.tags ++ (reconcileTags db.tags p.tags db.nextTagId).2.1,
        db.nextTaskId + 1, (reconcileTags db.tags p.tags db.nextTagId).2.2⟩
        db.nextTaskId) := by
  simp only [create_task]
  rw [if_pos hcommit]

/-- Computation of `create_task` when the commit is refused. -/
theorem create_task_fail (db : DB) (p : TaskCreate)
    (hcommit : ¬ commitOk (reconcileTags db.tags p.tags db.nextTagId).1
      (reconcileTags db.tags p.tags db.nextTagId).2.1) :
    create_task db p = none := by
  simp only [create_task]
  rw [if_neg hcommit]

/-- What a successful `create_task` tells about the committed state. -/
theorem create_task_eq_some_elim (db : DB) (p : TaskCreate) (db2 : DB)
    (t : Option Task) (h : create_task db p = some (db2, t)) :
    commitOk (reconcileTags db.tags p.tags db.nextTagId).1
      (reconcileTags db.tags p.tags db.nextTagId).2.1 ∧
    db2.tasks = db.tasks ++ [⟨db.nextTaskId, p.title, p.description, p.priority,
      p.due_date, p.completed, false,
      (reconcileTags db.tags p.tags db.nextTagId).1.map Tag.id⟩] ∧
    db2.tags = db.tags ++ (reconcileTags db.tags p.tags db.nextTagId).2.1 ∧
    db2.nextTaskId = db.nextTaskId + 1 := by
  by_cases hc : commitOk (reconcileTags db.tags p.tags db.nextTagId).1
      (reconcileTags db.tags p.tags db.nextTagId).2.1
  · rw [create_task_found db p hc] at h
    injection h with h1
    cases h1
    exact ⟨hc, rfl, rfl, rfl⟩
  · rw [create_task_fail db p hc] at h
    exact absurd h (by simp)

/-- Computation of `delete_task` on a visible row. -/
theorem delete_task_found (db : DB) (i : Nat) (t0 : Task)
    (h : get_task db i = some t0) :
    delete_task db i =
      ({ db with
          tasks := db.tasks.map
            (fun v => if v.id == i then { v with is_deleted := true } else v) },
       some { t0 with is_deleted := true }) := by
  unfold delete_task
  rw [h]

/-- Computation of `delete_task` on a missing or soft-deleted row. -/
theorem delete_task_notfound (db : DB) (i : Nat)
    (h : get_task db i = none) :
    delete_task db i = (db, none) := by
  unfold delete_task
  rw [h]

/-! ### Invisibility preservation -/

/-- Flipping `is_deleted` on every row bearing id `i` makes that id
invisible. -/
theorem invisible_of_delete (l : List Task) (i : Nat) :
    ∀ v ∈ l.map (fun w => if w.id == i then { w with is_deleted := true } else w),
      v.id = i → v.is_deleted = true := by
  intro v hv _
  rcases List.mem_map.mp hv with ⟨w, hw, hwv⟩
  by_cases hwi : w.id = i
  · rw [if_pos (by simp [hwi])] at hwv
    rw [← hwv]
  · rw [if_neg (by simp [hwi])] at hwv
    subst hwv
    rename_i hvi
    exact absurd hvi hwi

/-- A row rewrite targeting a different id keeps an invisible id
invisible. -/
theorem invisible_after_row_update (l : List Task) (i j : Nat) (t6 : Task)
    (hinv : ∀ v ∈ l, v.id = i → v.is_deleted = true)
    (h6 : t6.id = j) (hij : j ≠ i) :
    ∀ v ∈ l.map (fun w => if w.id == j then t6 else w),
      v.id = i → v.is_deleted = true := by
  intro v hv hvi
  rcases List.mem_map.mp hv with ⟨w, hw, hwv⟩
  by_cases hwj : w.id = j
  · rw [if_pos (by simp [hwj])] at hwv
    subst hwv
    rw [h6] at hvi
    exact absurd hvi hij
  · rw [if_neg (by simp [hwj])] at hwv
    subst hwv
    exact hinv w hw hvi

/-- Whenever `update_task` succeeds, the stored rows are either untouched
(not-found) or rewritten only at the requested id. -/
theorem update_task_ok_shape (db : DB) (j : Nat) (u : TaskUpdate) (db3 : DB)
    (r : Option Task) (hup : update_task db j u = .ok (db3, r)) :
    db3.tasks = db.tasks ∨
    ∃ t0 t6 : Task, get_task db j = some t0 ∧ t6.id = j ∧
      db3.tasks = db.tasks.map (fun w => if w.id == j then t6 else w) := by
  cases hg : get_task db j with
  | none =>
    left
    unfold update_task at hup
    rw [hg] at hup
    have hup2 : (Except.ok (db, (none : Option Task)) :
        Except String (DB × Option Task)) = .ok (db3, r) := hup
    injection hup2 with h1
    cases h1
    rfl
  | some t0 =>
    cases hu : u.tags with
    | none =>
      rw [update_task_tags_absent db j u t0 hg hu] at hup
      injection hup with h1
      cases h1
      right
      refine ⟨t0, applyScalarFields u t0, rfl, ?_, rfl⟩
      rw [applyScalarFields_spec]
      exact (get_task_some_elim db j t0 hg).2.1
    | some o =>
      cases o with
      | none =>
        rw [update_task_tags_null db j u t0 hg hu] at hup
        exact absurd hup (by simp)
      | some names =>
        by_cases hc : commitOk (reconcileTags db.tags names db.nextTagId).1
            (reconcileTags db.tags names db.nextTagId).2.1
        · rw [update_task_tags_present db j u t0 names hg hu hc] at hup
          injection hup with h1
          cases h1
          right
          refine ⟨t0, _, rfl, ?_, rfl⟩
          rw [applyScalarFields_spec]
          exact (get_task_some_elim db j t0 hg).2.1
        · have herr : update_task db j u = .error "IntegrityError" := by
            unfold update_task
            rw [hg, hu]
            simp only [if_neg hc]
          rw [herr] at hup
          exact absurd hup (by simp)

/-! ### Concrete fixtures for witnesses and counterexamples -/

def taskW : Task := ⟨1, "Write spec", none, 3, 100, false, false, [1]⟩

def dbW : DB := ⟨[taskW], [⟨1, "docs"⟩], 2, 2⟩

def dbC2 : DB := ⟨[⟨1, "t", none, 3, 200, false, false, []⟩], [], 2, 1⟩

def dbList : DB :=
  ⟨[⟨1, "both", none, 3, 9, false, false, [1, 2]⟩,
    ⟨2, "only a", none, 2, 9, false, false, [1]⟩,
    ⟨3, "gone", none, 1, 9, false, true, [1, 2]⟩],
   [⟨1, "a"⟩, ⟨2, "b"⟩], 4, 3⟩

/-! ### Claims -/

/-- C2 (code behaviour at the failing input): with today = 100, a PATCH
carrying the past due_date 50 on an existing task is accepted — the
persisted row ends with due_date 50 — although the very same date is
rejected, keyed "due_date", by create's validation.  `TaskUpdate` lacks
the `date_must_be_future` validator, so the update half of the claim
fails on the code. -/
theorem C2_update_accepts_past_due_date :
    patch_task dbC2 1 ⟨none, none, none, some 50, none, none⟩ =
      .ok ⟨[⟨1, "t", none, 3, 50, false, false, []⟩], [], 2, 1⟩
        ⟨1, "t", none, 3, 50, false, false, []⟩ ∧
    ((50 : Int) < 100) ∧
    (validateTaskCreate 100 ⟨"t", none, 3, 50, false, []⟩).any
      (fun kv => kv.1 == "due_date") = true := by decide

/-- C3 counterexample: a payload whose title is the empty string (trimmed
length 0) is accepted by create — no validation error — and the empty
title is persisted, contradicting both halves of the claim. -/
theorem C3_counterexample :
    post_tasks 0 ⟨[], [], 1, 1⟩ ⟨"", none, 3, 5, false, []⟩ =
      .ok ⟨[⟨1, "", none, 3, 5, false, false, []⟩], [], 2, 1⟩
        (some ⟨1, "", none, 3, 5, false, false, []⟩) ∧
    ("" : String).length = 0 := by decide

/-- C3 (amended): create rejects a title, keyed "title", exactly when its
(untrimmed) length exceeds 200; no minimum length and no trimming are
enforced, and a successful create persists the title verbatim. -/
theorem C3_title_validation (today : Int) (db : DB) (p : TaskCreate) :
    ((validateTaskCreate today p).any (fun kv => kv.1 == "title") =
      decide (200 < p.title.length)) ∧
    (∀ db2 t, create_task db p = some (db2, t) →
      ∃ task ∈ db2.tasks, task.id = db.nextTaskId ∧ task.title = p.title) := by
  constructor
  · unfold validateTaskCreate
    simp only [List.any_append]
    by_cases h : 200 < p.title.length
    · rw [if_pos h]
      simp [h]
    · rw [if_neg h]
      simp only [List.any_nil, Bool.false_or, decide_eq_false h]
      repeat' split
      all_goals decide
  · intro db2 t h
    obtain ⟨hc, htasks, -, -⟩ := create_task_eq_some_elim db p db2 t h
    refine ⟨⟨db.nextTaskId, p.title, p.description, p.priority, p.due_date,
      p.completed, false, (reconcileTags db.tags p.tags db.nextTagId).1.map Tag.id⟩,
      ?_, rfl, rfl⟩
    rw [htasks]
    exact List.mem_append_right _ (List.mem_cons_self _ _)

/-- Witness for C3's amended theorem: creating with title "x" on an empty
database persists a row with that exact title. -/
theorem C3_witness :
    ∃ task ∈ (⟨[⟨1, "x", none, 3, 5, false, false, []⟩], [], 2, 1⟩ : DB).tasks,
      task.id = 1 ∧ task.title = "x" :=
  (C3_title_validation 0 ⟨[], [], 1, 1⟩ ⟨"x", none, 3, 5, false, []⟩).2
    ⟨[⟨1, "x", none, 3, 5, false, false, []⟩], [], 2, 1⟩
    (some ⟨1, "x", none, 3, 5, false, false, []⟩) (by decide)

/-- C8: a priority outside [1,5] makes create fail with a 422 whose
details mapping carries the key "priority" (no repository call, nothing
persisted); a priority inside [1,5] with an otherwise valid payload makes
create succeed. -/
theorem C8_priority_validation (today : Int) (db : DB) (p : TaskCreate) :
    ((p.priority < 1 ∨ 5 < p.priority) →
      ∃ d, post_tasks today db p = .validationError d ∧
        d.any (fun kv => kv.1 == "priority") = true) ∧
    (1 ≤ p.priority → p.priority ≤ 5 → p.title.length ≤ 200 →
      today ≤ p.due_date → p.tags.Nodup → DBWf db →
      ∃ db2 t, post_tasks today db p = .ok db2 t) := by
  constructor
  · intro hout
    have herr : (validateTaskCreate today p).any
        (fun kv => kv.1 == "priority") = true := by
      unfold validateTaskCreate
      simp only [List.any_append]
      rcases hout with h1 | h5
      · rw [if_pos h1]
        simp
      · rw [if_neg (show ¬ p.priority < 1 by omega), if_pos h5]
        simp
    have hne : (validateTaskCreate today p).isEmpty = false := by
      cases hl : validateTaskCreate today p with
      | nil => rw [hl] at herr; simp at herr
      | cons a l => rfl
    refine ⟨validationDetails (validateTaskCreate today p), ?_, ?_⟩
    · simp only [post_tasks, hne, Bool.false_eq_true, if_false]
    · rw [validationDetails_any_key]
      exact herr
  · intro h1 h5 htitle hdate hnd hwf
    have hempty : validateTaskCreate today p = [] := by
      unfold validateTaskCreate
      rw [if_neg (by omega), if_neg (by omega), if_neg (by omega),
        if_neg (by omega)]
      rfl
    obtain ⟨db2, t, hc⟩ := create_task_isSome db p hwf hnd
    refine ⟨db2, t, ?_⟩
    simp only [post_tasks, hempty, List.isEmpty_nil, if_true, hc]

/-- Witness for C8: priority 9 is rejected keyed "priority" on a concrete
empty database. -/
theorem C8_witness :
    ∃ d, post_tasks 0 ⟨[], [], 1, 1⟩ ⟨"x", none, 9, 5, false, []⟩ =
      .validationError d ∧ d.any (fun kv => kv.1 == "priority") = true :=
  (C8_priority_validation 0 ⟨[], [], 1, 1⟩ ⟨"x", none, 9, 5, false, []⟩).1
    (Or.inr (by decide))

/-- C9: for every existing non-deleted task, an update whose payload has
the tags field present with value null raises a TypeError from iterating
over None — it is neither a tag-set replacement nor a successful
update. -/
theorem C9_update_null_tags_raises (db : DB) (i : Nat) (t0 : Task)
    (u : TaskUpdate) (h : get_task db i = some t0) (hu : u.tags = some none) :
    update_task db i u = .error "TypeError: NoneType object is not iterable" ∧
    ∀ db2 r, update_task db i u ≠ .ok (db2, r) := by
  have he := update_task_tags_null db i u t0 h hu
  refine ⟨he, fun db2 r hc => ?_⟩
  rw [he] at hc
  exact Except.noConfusion hc

/-- Witness for C9 on a concrete database. -/
theorem C9_witness :
    update_task dbW 1 ⟨none, none, none, none, none, some none⟩ =
      .error "TypeError: NoneType object is not iterable" :=
  (C9_update_null_tags_raises dbW 1 taskW
    ⟨none, none, none, none, none, some none⟩ (by decide) rfl).1

/-- C10: soft delete only flips is_deleted — the found task's returned
copy and, positionally, every stored row keep id, title, description,
priority, due_date, completed and tag associations; the tag table and the
id counters are untouched; rows with other ids are wholly unchanged. -/
theorem C10_soft_delete_frame (db : DB) (i : Nat) (t0 : Task)
    (h : get_task db i = some t0) :
    (delete_task db i).2 = some { t0 with is_deleted := true } ∧
    (delete_task db i).1.tags = db.tags ∧
    (delete_task db i).1.nextTaskId = db.nextTaskId ∧
    (delete_task db i).1.nextTagId = db.nextTagId ∧
    (delete_task db i).1.tasks.length = db.tasks.length ∧
    ∀ (j : Nat) (u v : Task), db.tasks[j]? = some u →
      (delete_task db i).1.tasks[j]? = some v →
      v.id = u.id ∧ v.title = u.title ∧ v.description = u.description ∧
      v.priority = u.priority ∧ v.due_date = u.due_date ∧
      v.completed = u.completed ∧ v.tags = u.tags ∧
      v.is_deleted = (u.is_deleted || (u.id == i)) := by
  rw [delete_task_found db i t0 h]
  refine ⟨rfl, rfl, rfl, rfl, by simp, ?_⟩
  intro j u v hu hv
  simp only [List.getElem?_map, hu, Option.map_some'] at hv
  injection hv with hv
  subst hv
  by_cases hui : u.id = i
  · simp [hui]
  · simp [hui]

/-- Witness for C10 on a concrete database. -/
theorem C10_witness :
    (delete_task dbW 1).2 = some { taskW with is_deleted := true } :=
  (C10_soft_delete_frame dbW 1 taskW (by decide)).1

/-- C5: with a (nonempty) comma-separated tag filter naming several tags,
list returns exactly the requested page of the non-deleted tasks carrying
every named tag (AND across names); in particular no returned task is
soft-deleted or carries only a strict subset of the named tags. -/
theorem C5_tag_filter_and (db : DB) (skip limit : Nat) (s : String)
    (hs : s ≠ "") :
    get_tasks db skip limit none none (some s) =
      ((db.tasks.filter (fun t => t.is_deleted == false &&
          (parseTagFilter s).all (fun n => taskHasTag db t n))).drop skip).take limit ∧
    ∀ t ∈ get_tasks db skip limit none none (some s),
      t.is_deleted = false ∧ ∀ n ∈ parseTagFilter s, taskHasTag db t n = true := by
  refine ⟨get_tasks_tag_page db skip limit s hs, ?_⟩
  intro t ht
  rw [get_tasks_tag_page db skip limit s hs] at ht
  have h2 := List.of_mem_filter (List.mem_of_mem_drop (List.mem_of_mem_take ht))
  simp only [Bool.and_eq_true, beq_iff_eq, List.all_eq_true] at h2
  exact h2

/-- Witness for C5: filtering "a,b" on a concrete store returns only the
task carrying both tags, not the visible task carrying just "a" nor the
deleted one carrying both. -/
theorem C5_witness :
    get_tasks dbList 0 10 none none (some "a,b") =
      [⟨1, "both", none, 3, 9, false, false, [1, 2]⟩] := by
  rw [(C5_tag_filter_and dbList 0 10 "a,b" (by decide)).1]
  decide

/-- C6: on an existing visible task, an update whose tags field is present
and empty succeeds and leaves the task with zero tag associations, while
an update omitting the tags field succeeds and leaves its associations
exactly as they were. -/
theorem C6_update_tags_empty_vs_absent (db : DB) (i : Nat) (t0 : Task)
    (h : get_task db i = some t0) :
    (∀ u : TaskUpdate, u.tags = some (some []) →
      ∃ db2 t2, update_task db i u = .ok (db2, some t2) ∧
        t2.id = t0.id ∧ t2.tags = []) ∧
    (∀ u : TaskUpdate, u.tags = none →
      ∃ db2 t2, update_task db i u = .ok (db2, some t2) ∧
        t2.id = t0.id ∧ t2.tags = t0.tags) := by
  constructor
  · intro u hu
    have hcommit : commitOk (reconcileTags db.tags [] db.nextTagId).1
        (reconcileTags db.tags [] db.nextTagId).2.1 := by
      constructor <;> simp [reconcileTags]
    refine ⟨_, _, update_task_tags_present db i u t0 [] h hu hcommit, ?_, rfl⟩
    rw [applyScalarFields_spec]
  · intro u hu
    refine ⟨_, _, update_task_tags_absent db i u t0 h hu, ?_, ?_⟩
    · rw [applyScalarFields_spec]
    · rw [applyScalarFields_spec]

/-- Witness for C6: replacing the tag set by the empty list on a concrete
task empties its associations. -/
theorem C6_witness :
    ∃ db2 t2, update_task dbW 1 ⟨none, none, none, none, none, some (some [])⟩ =
      .ok (db2, some t2) ∧ t2.id = taskW.id ∧ t2.tags = [] :=
  (C6_update_tags_empty_vs_absent dbW 1 taskW (by decide)).1
    ⟨none, none, none, none, none, some (some [])⟩ rfl

/-- C7: partial update frame: every field absent from the payload keeps
its prior value — title, description, priority, due_date, completed, tag
set — and the updated row keeps its id and stays visible. -/
theorem C7_update_frame_semantics (db : DB) (i : Nat) (u : TaskUpdate)
    (t0 : Task) (h : get_task db i = some t0) (db2 : DB) (t2 : Task)
    (hok : update_task db i u = .ok (db2, some t2)) :
    (u.title = none → t2.title = t0.title) ∧
    (u.description = none → t2.description = t0.description) ∧
    (u.priority = none → t2.priority = t0.priority) ∧
    (u.due_date = none → t2.due_date = t0.due_date) ∧
    (u.completed = none → t2.completed = t0.completed) ∧
    (u.tags = none → t2.tags = t0.tags) ∧
    t2.id = t0.id ∧ t2.is_deleted = false := by
  have hdel := (get_task_some_elim db i t0 h).2.2
  cases hu : u.tags with
  | none =>
    rw [update_task_tags_absent db i u t0 h hu] at hok
    injection hok with h1
    injection h1 with hdb ht
    injection ht with ht2
    subst ht2
    refine ⟨fun hx => by simp [applyScalarFields_spec, hx],
      fun hx => by simp [applyScalarFields_spec, hx],
      fun hx => by simp [applyScalarFields_spec, hx],
      fun hx => by simp [applyScalarFields_spec, hx],
      fun hx => by simp [applyScalarFields_spec, hx],
      fun hx => by simp [applyScalarFields_spec],
      by simp [applyScalarFields_spec],
      by simp [applyScalarFields_spec, hdel]⟩
  | some o =>
    cases o with
    | none =>
      rw [update_task_tags_null db i u t0 h hu] at hok
      exact absurd hok (by simp)
    | some names =>
      by_cases hc : commitOk (reconcileTags db.tags names db.nextTagId).1
          (reconcileTags db.tags names db.nextTagId).2.1
      · rw [update_task_tags_present db i u t0 names h hu hc] at hok
        injection hok with h1
        injection h1 with hdb ht
        injection ht with ht2
        subst ht2
        refine ⟨fun hx => by simp [applyScalarFields_spec, hx],
          fun hx => by simp [applyScalarFields_spec, hx],
          fun hx => by simp [applyScalarFields_spec, hx],
          fun hx => by simp [applyScalarFields_spec, hx],
          fun hx => by simp [applyScalarFields_spec, hx],
          fun hx => Option.noConfusion hx,
          by simp [applyScalarFields_spec],
          by simp [applyScalarFields_spec, hdel]⟩
      · have herr : update_task db i u = .error "IntegrityError" := by
          unfold update_task
          rw [h, hu]
          simp only [if_neg hc]
        rw [herr] at hok
        exact absurd hok (by simp)

/-- Witness for C7: a title-only patch on a concrete task leaves its
priority, due date and tag set unchanged. -/
theorem C7_witness :
    (⟨1, "New", none, 3, 100, false, false, [1]⟩ : Task).priority = taskW.priority ∧
    (⟨1, "New", none, 3, 100, false, false, [1]⟩ : Task).due_date = taskW.due_date ∧
    (⟨1, "New", none, 3, 100, false, false, [1]⟩ : Task).tags = taskW.tags := by
  have hthm := C7_update_frame_semantics dbW 1
    ⟨some "New", none, none, none, none, none⟩ taskW (by decide)
    ⟨[⟨1, "New", none, 3, 100, false, false, [1]⟩], [⟨1, "docs"⟩], 2, 2⟩
    ⟨1, "New", none, 3, 100, false, false, [1]⟩ (by rfl)
  exact ⟨hthm.2.2.1 rfl, hthm.2.2.2.1 rfl, hthm.2.2.2.2.2.1 rfl⟩

/-- C4: after a successful soft delete, the id is terminally invisible:
get returns not-found, no filtered listing contains it, a second delete
yields not-found with the state unchanged, and no later create, update or
delete makes the id visible again. -/
theorem C4_soft_delete_terminal (db : DB) (i : Nat) (t0 : Task)
    (hwf : DBWf db) (h : get_task db i = some t0) :
    get_task (delete_task db i).1 i = none ∧
    (∀ skip limit c pr sf, ∀ u ∈ get_tasks (delete_task db i).1 skip limit c pr sf,
      u.id ≠ i) ∧
    delete_task (delete_task db i).1 i = ((delete_task db i).1, none) ∧
    (∀ p db3 r, create_task (delete_task db i).1 p = some (db3, r) →
      get_task db3 i = none) ∧
    (∀ j v db3 r, update_task (delete_task db i).1 j v = .ok (db3, r) →
      get_task db3 i = none) ∧
    (∀ j, get_task (delete_task (delete_task db i).1 j).1 i = none) := by
  obtain ⟨hmem, hid, hdel⟩ := get_task_some_elim db i t0 h
  have hshape := delete_task_found db i t0 h
  have hdb2tasks : (delete_task db i).1.tasks = db.tasks.map
      (fun v => if v.id == i then { v with is_deleted := true } else v) := by
    rw [hshape]
  have hdb2next : (delete_task db i).1.nextTaskId = db.nextTaskId := by
    rw [hshape]
  have hinv : ∀ v ∈ (delete_task db i).1.tasks, v.id = i → v.is_deleted = true := by
    rw [hdb2tasks]
    exact invisible_of_delete db.tasks i
  have hnone : get_task (delete_task db i).1 i = none :=
    get_task_none_of_invisible _ i hinv
  refine ⟨hnone, ?_, delete_task_notfound _ i hnone, ?_, ?_, ?_⟩
  · intro skip limit c pr sf u hu hui
    obtain ⟨humem, hudel⟩ := mem_get_tasks _ skip limit c pr sf u hu
    have := hinv u humem hui
    rw [this] at hudel
    exact Bool.noConfusion hudel
  · intro p db3 r hc
    obtain ⟨-, htasks3, -, -⟩ := create_task_eq_some_elim _ p db3 r hc
    apply get_task_none_of_invisible
    rw [htasks3]
    intro v hv hvi
    rcases List.mem_append.mp hv with hv2 | hvnew
    · exact hinv v hv2 hvi
    · exfalso
      have hvn : v = ⟨(delete_task db i).1.nextTaskId, p.title, p.description,
          p.priority, p.due_date, p.completed, false,
          (reconcileTags (delete_task db i).1.tags p.tags
            (delete_task db i).1.nextTagId).1.map Tag.id⟩ :=
        List.mem_singleton.mp hvnew
      have hlt : t0.id < db.nextTaskId := hwf.2.2.2.1 t0 hmem
      rw [hvn] at hvi
      simp only at hvi
      rw [hdb2next] at hvi
      omega
  · intro j v db3 r hup
    rcases update_task_ok_shape _ j v db3 r hup with hsame |
      ⟨tj, t6, hgj, h6, htasks3⟩
    · apply get_task_none_of_invisible
      rw [hsame]
      exact hinv
    · by_cases hji : j = i
      · rw [hji] at hgj
        rw [hnone] at hgj
        exact absurd hgj (by simp)
      · apply get_task_none_of_invisible
        rw [htasks3]
        exact invisible_after_row_update _ i j t6 hinv h6 hji
  · intro j
    cases hg : get_task (delete_task db i).1 j with
    | none =>
      rw [delete_task_notfound _ j hg]
      exact hnone
    | some tx =>
      rw [delete_task_found _ j tx hg]
      apply get_task_none_of_invisible
      intro v hv hvi
      rcases List.mem_map.mp hv with ⟨w, hw, hwv⟩
      by_cases hwj : w.id = j
      · rw [if_pos (by simp [hwj])] at hwv
        rw [← hwv]
      · rw [if_neg (by simp [hwj])] at hwv
        subst hwv
        exact hinv w hw hvi

/-- Witness for C4: after deleting the only task of a concrete store, its
id is no longer fetchable. -/
theorem C4_witness :
    get_task (delete_task dbW 1).1 1 = none :=
  (C4_soft_delete_terminal dbW 1 taskW (by decide) (by decide)).1

/-- C1 counterexample: a single create whose payload repeats the fresh
name "a" does not collapse the duplicate — the tag loop yields two
distinct references, ids 1 and 2, both named "a" — and the call returns
no collection at all: the commit dies on the unique constraint. -/
theorem C1_counterexample :
    create_task ⟨[], [], 1, 1⟩ ⟨"t", none, 3, 5, false, ["a", "a"]⟩ = none ∧
    (reconcileTags ([] : List Tag) ["a", "a"] 1).1 =
      [⟨1, "a"⟩, ⟨2, "a"⟩] := by decide

/-- C1 (amended): on a well-formed store, a successful create keeps tag
names globally unique, and a name already present is reconciled to the
existing row — the same Tag identity, never a second row with that name.
Within one request duplicates are not collapsed: the loop returns one
reference per occurrence, in input order, and a payload with a repeated
fresh name aborts with a uniqueness violation; duplicate-free payloads
always commit. -/
theorem C1_tag_uniqueness (db : DB) (p : TaskCreate) (hwf : DBWf db) :
    (∀ db2 t, create_task db p = some (db2, t) →
      (db2.tags.map Tag.name).Nodup ∧
      ∀ tg ∈ db.tags, tg ∈ db2.tags ∧
        ∀ tg2 ∈ db2.tags, tg2.name = tg.name → tg2 = tg) ∧
    ((reconcileTags db.tags p.tags db.nextTagId).1.map Tag.name = p.tags) ∧
    (p.tags.Nodup → create_task db p ≠ none) := by
  refine ⟨?_, reconcileTags_refs_names db.tags p.tags db.nextTagId, ?_⟩
  · intro db2 t h
    obtain ⟨hc, -, htags2, -⟩ := create_task_eq_some_elim db p db2 t h
    have hdisj : ∀ n ∈ (reconcileTags db.tags p.tags db.nextTagId).2.1.map Tag.name,
        n ∉ db.tags.map Tag.name := by
      intro n hn hmemdb
      rw [reconcileTags_created_names] at hn
      have hfn := (List.mem_filter.mp hn).2
      rcases List.mem_map.mp hmemdb with ⟨tg, htg, htgn⟩
      rw [Option.isNone_iff_eq_none, List.find?_eq_none] at hfn
      exact hfn tg htg (by simp [htgn])
    constructor
    · rw [htags2, List.map_append]
      exact List.Nodup.append hwf.2.2.1 hc.1
        (fun a ha hb => hdisj a hb ha)
    · intro tg htg
      constructor
      · rw [htags2]
        exact List.mem_append_left _ htg
      · intro tg2 htg2 hname
        rw [htags2] at htg2
        rcases List.mem_append.mp htg2 with h2 | h2
        · exact List.inj_on_of_nodup_map hwf.2.2.1 h2 htg hname
        · exact absurd (hname ▸ List.mem_map_of_mem Tag.name htg)
            (fun hmem2 => hdisj tg2.name (List.mem_map_of_mem Tag.name h2) hmem2)
  · intro hnd hcontra
    obtain ⟨db2, t, hc⟩ := create_task_isSome db p hwf hnd
    rw [hc] at hcontra
    exact Option.noConfusion hcontra

/-- Witness for C1's amended theorem: a duplicate-free payload reusing an
existing name commits on a concrete store. -/
theorem C1_witness :
    create_task dbW ⟨"u", none, 2, 5, false, ["docs", "new"]⟩ ≠ none :=
  (C1_tag_uniqueness dbW ⟨"u", none, 2, 5, false, ["docs", "new"]⟩
    (by decide)).2.2 (by decide)

end Medivue
